import Mathlib

/-!
Verification of the MobulaOP MXNet glue bridge
(`src/mobula/cpp/include/glue/mxnet_glue.h`).

Handles (`NDArrayHandle`, pointers in the source) are modelled as natural
numbers; the engine orders them with the pointer order, modelled by `≤` on
`Nat`.  The host-framework primitives installed by `RegisterMXAPI`
(shallow copy, get-context, to-DLPack, pointer dereference) are modelled
as an explicit environment of functions.
-/

namespace MxnetGlue

/-- Adjacent-duplicate removal on an already materialised list, the effect of
`std::unique` followed by `resize` in `DeduplicateNDArrayHandle`. -/
def dedupAdj : List Nat → List Nat
  | [] => []
  | [a] => [a]
  | a :: b :: rest =>
    if a = b then dedupAdj (a :: rest) else a :: dedupAdj (b :: rest)
termination_by l => l.length

/-- The read-set compaction loop of `DeduplicateNDArrayHandle`: walk the
sorted read list with a persistent cursor `wit` into the sorted write list,
keeping a read handle only when the cursor does not land on an equal write
handle.  The cursor state is the not-yet-dropped suffix of the write list. -/
def removeWrites : List Nat → List Nat → List Nat
  | [], _ => []
  | r :: rs, ws =>
    let ws' := ws.dropWhile (fun w => w < r)
    match ws' with
    | [] => r :: removeWrites rs []
    | w :: t => if w = r then removeWrites rs (w :: t) else r :: removeWrites rs (w :: t)

/-- `DeduplicateNDArrayHandle`: sort and deduplicate the write list, sort and
deduplicate the read list, then drop from the read list every handle that
also occurs in the write list.  Returns `(read_nds, write_nds)` after the
in-place mutation. -/
def DeduplicateNDArrayHandle (read_nds write_nds : List Nat) : List Nat × List Nat :=
  let w := dedupAdj (List.insertionSort (· ≤ ·) write_nds)
  let r := dedupAdj (List.insertionSort (· ≤ ·) read_nds)
  (removeWrites r w, w)

/-- Modelled from the spec: the sentinel POD tag `kTVMType` of the
packed-call ABI (`tvm_packed_func.h` is not among the sources); POD tags
lie strictly below it. -/
def kTVMType : Int := 5

/-- Modelled from the spec: the DLPack-tensor tag written by `Init`. -/
def kArrayHandle : Int := 7

/-- Modelled from the spec: the framework-tensor (MXNet NDArray) tag
carried by tensor arguments on input. -/
def kTVMNDArrayTypeCode : Int := 19

/-- Modelled from the spec: the DLPack device-type value for GPU, passed
as first argument of the stream setter in `Run`. -/
def kDLGPU : Int := 2

/-- `Context` of `mxnet_glue.h`: a device type paired with a device id.
The `DeviceType` enum is embedded as its integer values. -/
structure Context where
  dev_type : Int
  dev_id : Int
deriving DecidableEq, Repr

/-- `Context::DeviceType::kCPU`. -/
def Context.kCPU : Int := 1

/-- `Context::DeviceType::kGPU`. -/
def Context.kGPU : Int := 2

/-- `Context::DeviceType::kCPUPinned`. -/
def Context.kCPUPinned : Int := 3

/-- Modelled from the spec: the packed-call union payload (`TVMValue` of
`tvm_packed_func.h`).  Only the views used by the bridge are
distinguished; pointers are numbers. -/
inductive TVMValue where
  | vInt (v : Int)
  | vFloat (bits : Int)
  | vHandle (p : Nat)
deriving DecidableEq, Repr

/-- The `v_handle` view of a union payload (reinterpreting a non-pointer
payload is unspecified behaviour; the model reads it as the null pointer). -/
def TVMValue.v_handle : TVMValue → Nat
  | .vHandle p => p
  | _ => 0

/-- The host-framework primitives installed by `RegisterMXAPI`, modelled
as pure functions on handle numbers: `MXShallowCopyNDArray`,
`MXNDArrayGetContext` (device type and id of a handle),
`MXNDArrayToDLPack`, and the dereference of a `void**` performed on
`rctx.stream` in `Run`. -/
structure Env where
  shallowCopy : Nat → Nat
  getContext : Nat → Int × Int
  toDLPack : Nat → Nat
  readPtr : Nat → Nat

/-- The two fatal exits of `TVMFunctor::Init`: the `exit(-1)` following
the "Inconsistent context" message (which prints the running source
context and the offending tensor's `(dev_type, dev_id)`), and the
`CHECK_LT` assertion rejecting a non-POD, non-tensor type code. -/
inductive InitError where
  | inconsistent (src : Context) (tgtType tgtId : Int)
  | nonPOD (code : Int)
deriving DecidableEq, Repr

/-- State accumulated by the argument walk of `TVMFunctor::Init`:
the rewritten type-code buffer, the shallow-copied tensor handles, their
argument positions, the provisional read/write attribution, and the
running unified device context (`dev_id == -1` marks it still unset). -/
structure LoopOut where
  type_codes : List Int
  array_handle : List Nat
  array_loc : List Nat
  const_nds : List Nat
  mutate_nds : List Nat
  ctx : Context
deriving DecidableEq, Repr

/-- The device-context unification check of `Init`: the mismatch
comparison is guarded by `ctx_.dev_id != -1`, a value sentinel — while
the running context's `dev_id` is `-1` (including after a tensor that
itself reported `dev_id == -1`) no check is performed; otherwise a
mismatching tensor context is the fatal "Inconsistent context" exit. -/
def ctxCheck (ctx : Context) (dc : Int × Int) : Except InitError Unit :=
  if ctx.dev_id = -1 then .ok ()
  else if dc.1 = ctx.dev_type ∧ dc.2 = ctx.dev_id then .ok ()
  else .error (.inconsistent ctx dc.1 dc.2)

/-- The running unified context viewed as a (possibly empty) list of
`(dev_type, dev_id)` pairs: empty while the `dev_id == -1` sentinel marks
it unset. -/
def armedCtx (ctx : Context) : List (Int × Int) :=
  if ctx.dev_id = -1 then [] else [(ctx.dev_type, ctx.dev_id)]

/-- The const-position cursor of `Init`: a tensor at slot `i` is a read
when `i` equals the next unconsumed const position (which is then
consumed), otherwise a mutation.  Returns (is-const, remaining cursor). -/
def cursorStep (i : Nat) (cl : List Nat) : Bool × List Nat :=
  match cl with
  | c0 :: cl' => if i = c0 then (true, cl') else (false, cl)
  | [] => (false, [])

/-- Record one tensor slot in the accumulated `Init` state: retag the slot
as DLPack, store the shallow copy and its position, and attribute the copy
to the provisional read or write set. -/
def consTensor (nd : Nat) (i : Nat) (isConst : Bool) (o : LoopOut) : LoopOut :=
  { o with
    type_codes := kArrayHandle :: o.type_codes
    array_handle := nd :: o.array_handle
    array_loc := i :: o.array_loc
    const_nds := if isConst then nd :: o.const_nds else o.const_nds
    mutate_nds := if isConst then o.mutate_nds else nd :: o.mutate_nds }

/-- The argument walk of `TVMFunctor::Init` over the zipped
`(type_code, value)` slots starting at index `i`, with cursor `cl` and
running unified context `ctx`.  A tensor slot is shallow-copied, context
checked, retagged and attributed; a POD slot (code below `kTVMType`) is
kept as is; any other slot is the fatal `CHECK_LT` assertion. -/
def initLoop (env : Env) :
    List (Int × TVMValue) → Nat → List Nat → Context → Except InitError LoopOut
  | [], _, _, ctx => .ok ⟨[], [], [], [], [], ctx⟩
  | (code, v) :: rest, i, cl, ctx =>
    if code = kTVMNDArrayTypeCode then
      let nd := env.shallowCopy v.v_handle
      let dc := env.getContext nd
      match ctxCheck ctx dc with
      | .error e => .error e
      | .ok _ =>
        (initLoop env rest (i + 1) (cursorStep i cl).2
            ⟨dc.1, dc.2⟩).map (consTensor nd i (cursorStep i cl).1)
    else if code < kTVMType then
      (initLoop env rest (i + 1) cl ctx).map fun o =>
        { o with type_codes := code :: o.type_codes }
    else .error (.nonPOD code)

/-- The populated functor after a successful `Init`, together with the
provisional dependency sets delivered through the out-parameters. -/
structure InitResult where
  values : List TVMValue
  type_codes : List Int
  array_handle : List Nat
  array_loc : List Nat
  ctx : Context
  const_nds : List Nat
  mutate_nds : List Nat
deriving DecidableEq, Repr

/-- `TVMFunctor::Init`: copy the packed argument buffer and walk the
slots.  The values buffer is copied unmodified; the type-code buffer, the
stored handles and positions, the unified context and the provisional
read/write sets come from the walk.  The walk starts with
`ctx_.dev_id = -1` (the source leaves `dev_type` uninitialised and never
compares it while the sentinel holds; the model fixes it to `0`).  A
fatal exit is `Except.error`. -/
def TVMFunctor.Init (env : Env) (values : List TVMValue) (type_codes : List Int)
    (const_loc : List Nat) : Except InitError InitResult :=
  (initLoop env (type_codes.zip values) 0 const_loc ⟨0, -1⟩).map fun o =>
    ⟨values, o.type_codes, o.array_handle, o.array_loc, o.ctx, o.const_nds, o.mutate_nds⟩

/-- Specification helper: the tensor-slot positions of an argument list
whose first slot has index `i`. -/
def tensorLocs (i : Nat) : List (Int × TVMValue) → List Nat
  | [] => []
  | (code, _) :: rest =>
    if code = kTVMNDArrayTypeCode then i :: tensorLocs (i + 1) rest
    else tensorLocs (i + 1) rest

/-- Specification helper: the shallow copies of the tensor arguments
sitting at const positions (`∈ cl`), in slot order. -/
def constCopies (env : Env) (i : Nat) (cl : List Nat) : List (Int × TVMValue) → List Nat
  | [] => []
  | (code, v) :: rest =>
    if code = kTVMNDArrayTypeCode ∧ i ∈ cl then
      env.shallowCopy v.v_handle :: constCopies env (i + 1) cl rest
    else constCopies env (i + 1) cl rest

/-- Specification helper: the shallow copies of the tensor arguments at
non-const positions (`∉ cl`), in slot order. -/
def mutateCopies (env : Env) (i : Nat) (cl : List Nat) : List (Int × TVMValue) → List Nat
  | [] => []
  | (code, v) :: rest =>
    if code = kTVMNDArrayTypeCode ∧ i ∉ cl then
      env.shallowCopy v.v_handle :: mutateCopies env (i + 1) cl rest
    else mutateCopies env (i + 1) cl rest

/-- Specification helper: the device contexts reported for the shallow
copies of the tensor arguments, in slot order. -/
def tensorCtxs (env : Env) : List (Int × TVMValue) → List (Int × Int)
  | [] => []
  | (code, v) :: rest =>
    if code = kTVMNDArrayTypeCode then
      env.getContext (env.shallowCopy v.v_handle) :: tensorCtxs env rest
    else tensorCtxs env rest

/-- A wrapped packed function as built by `WrapAsyncCall` and stored in
the registry: the user function together with the sorted const-position
array captured by the closure. -/
structure Wrapped (α : Type) where
  user_fn : α
  const_loc : List Nat
deriving DecidableEq, Repr

/-- `WrapAsyncCall`: sort the const positions and close over them and the
user function. -/
def WrapAsyncCall {α : Type} (f : α) (const_loc : List Nat) : Wrapped α :=
  ⟨f, List.insertionSort (· ≤ ·) const_loc⟩

/-- The arguments of the `MXEnginePushSyncND` call issued by one wrapped
invocation: the functor's context and the derived read/write handle sets. -/
structure PushCall where
  ctx : Context
  const_nds : List Nat
  mutate_nds : List Nat
deriving DecidableEq, Repr

/-- One invocation of the wrapped function produced by `WrapAsyncCall`:
build a functor via `Init`, derive the dependency sets with
`DeduplicateNDArrayHandle`, and push the task to the engine.  The `ok`
value records the engine push; a fatal `Init` exit aborts the process
before any push. -/
def wrappedCall {α : Type} (env : Env) (w : Wrapped α) (values : List TVMValue)
    (type_codes : List Int) : Except InitError PushCall :=
  (TVMFunctor.Init env values type_codes w.const_loc).map fun res =>
    let rw := DeduplicateNDArrayHandle res.const_nds res.mutate_nds
    ⟨res.ctx, rw.1, rw.2⟩

/-- The engine pushes issued by one wrapped call: exactly one on success,
none when the process aborts inside `Init`. -/
def pushedCalls (r : Except InitError PushCall) : List PushCall :=
  match r with
  | .ok p => [p]
  | .error _ => []

/-- `GetMXNetFunc`: look the name up in the process-wide `FUNCTIONS`
registry (modelled as an association list, newest binding first); on a
miss, build the wrapping from the supplied user function and const
positions and store it.  Returns the wrapped function handed to the
caller and the updated registry. -/
def GetMXNetFunc {α : Type} (reg : List (String × Wrapped α)) (name : String) (f : α)
    (const_loc : List Nat) : Wrapped α × List (String × Wrapped α) :=
  match reg.lookup name with
  | some w => (w, reg)
  | none =>
    let w := WrapAsyncCall f const_loc
    (w, (name, w) :: reg)

/-- External calls observable during `TVMFunctor::Run`: producing a
managed tensor from a stored handle (`MXNDArrayToDLPack`), invoking the
stream setter, invoking the user packed function, and invoking a managed
tensor's deleter. -/
inductive RunEvent where
  | produce (handle dlm : Nat)
  | setStream (dev_type dev_id : Int) (strm : Option Nat)
  | callUser
  | delete (dlm : Nat)
deriving DecidableEq, Repr

/-- The `RunContext` handed to the engine task: a device context and the
opaque stream indirection (a pointer to the real stream pointer). -/
structure RunContext where
  ctx : Context
  stream : Nat
deriving DecidableEq, Repr

/-- The functor state `Run` operates on (fields of `TVMFunctor`). -/
structure FunctorState where
  values : List TVMValue
  type_codes : List Int
  array_handle : List Nat
  array_loc : List Nat
  ctx : Context
deriving DecidableEq, Repr

/-- The `values_[array_loc_[i]].v_handle = &dlm->dl_tensor` rewrite of
`Run`, overwriting each tensor slot with its managed tensor's inner
DLPack tensor. -/
def updateValues (values : List TVMValue) (locs dlms : List Nat) : List TVMValue :=
  (locs.zip dlms).foldl (fun vs pd => vs.set pd.1 (TVMValue.vHandle pd.2)) values

/-- `TVMFunctor::Run`: produce one managed tensor per stored handle and
rewrite the tensor slots; on GPU bind the stream read through
`rctx.stream`, call the user function, unbind with a null stream; on any
other device call the user function directly; finally invoke every
managed tensor's deleter.  Returns the external-call trace and the
argument values passed to the user function. -/
def TVMFunctor.Run (env : Env) (f : FunctorState) (rctx : RunContext) :
    List RunEvent × List TVMValue :=
  let dlms := f.array_handle.map env.toDLPack
  let vals := updateValues f.values f.array_loc dlms
  let callPart :=
    if f.ctx.dev_type = Context.kGPU then
      [RunEvent.setStream kDLGPU rctx.ctx.dev_id (some (env.readPtr rctx.stream)),
       RunEvent.callUser,
       RunEvent.setStream kDLGPU rctx.ctx.dev_id none]
    else [RunEvent.callUser]
  ((f.array_handle.map fun h => RunEvent.produce h (env.toDLPack h)) ++ callPart ++
    dlms.map RunEvent.delete, vals)

/-- Discriminator for stream-setter events in a `Run` trace. -/
def RunEvent.isSetStream : RunEvent → Bool
  | .setStream _ _ _ => true
  | _ => false

/-- Discriminator for managed-tensor production events in a `Run` trace. -/
def RunEvent.isProduce : RunEvent → Bool
  | .produce _ _ => true
  | _ => false

/-- Discriminator for deleter events in a `Run` trace. -/
def RunEvent.isDelete : RunEvent → Bool
  | .delete _ => true
  | _ => false

/- ### Lemmas about `dedupAdj` -/

theorem dedupAdj_sublist : ∀ l : List Nat, List.Sublist (dedupAdj l) l
  | [] => by simp [dedupAdj]
  | [a] => by simp [dedupAdj]
  | a :: b :: rest => by
    rw [dedupAdj]
    by_cases h : a = b
    · simp only [if_pos h]
      subst h
      exact (dedupAdj_sublist (a :: rest)).trans
        ((List.sublist_cons_self a rest).cons_cons a)
    · simp only [if_neg h]
      exact (dedupAdj_sublist (b :: rest)).cons_cons a
termination_by l => l.length

theorem mem_dedupAdj : ∀ l : List Nat, ∀ x, x ∈ dedupAdj l ↔ x ∈ l
  | [] => by simp [dedupAdj]
  | [a] => by simp [dedupAdj]
  | a :: b :: rest => by
    intro x
    rw [dedupAdj]
    by_cases h : a = b
    · simp only [if_pos h]
      rw [mem_dedupAdj (a :: rest)]
      subst h
      simp only [List.mem_cons]
      tauto
    · simp only [if_neg h, List.mem_cons]
      rw [mem_dedupAdj (b :: rest)]
      simp [List.mem_cons]
termination_by l => l.length

theorem sorted_lt_dedupAdj : ∀ l : List Nat, l.Sorted (· ≤ ·) →
    (dedupAdj l).Sorted (· < ·)
  | [] => by simp [dedupAdj]
  | [a] => by simp [dedupAdj]
  | a :: b :: rest => by
    intro hs
    rw [dedupAdj]
    rcases List.sorted_cons.mp hs with ⟨hab, hs'⟩
    by_cases h : a = b
    · simp only [if_pos h]
      apply sorted_lt_dedupAdj (a :: rest)
      subst h
      exact List.sorted_cons.mpr ⟨fun c hc => (List.sorted_cons.mp hs').1 c hc, (List.sorted_cons.mp hs').2⟩
    · simp only [if_neg h]
      apply List.sorted_cons.mpr
      refine ⟨fun c hc => ?_, sorted_lt_dedupAdj (b :: rest) hs'⟩
      have hc' : c ∈ b :: rest := (mem_dedupAdj _ c).mp hc
      have hb : a < b := lt_of_le_of_ne (hab b (by simp)) h
      rcases List.mem_cons.mp hc' with rfl | hc''
      · exact hb
      · exact lt_of_lt_of_le hb ((List.sorted_cons.mp hs').1 c hc'')
termination_by l => l.length

theorem dedupAdj_eq_self_of_sorted_lt : ∀ l : List Nat, l.Sorted (· < ·) →
    dedupAdj l = l
  | [] => by simp [dedupAdj]
  | [a] => by simp [dedupAdj]
  | a :: b :: rest => by
    intro hs
    rcases List.sorted_cons.mp hs with ⟨hab, hs'⟩
    have h : a ≠ b := Nat.ne_of_lt (hab b (by simp))
    rw [dedupAdj, if_neg h, dedupAdj_eq_self_of_sorted_lt (b :: rest) hs']
termination_by l => l.length

theorem nodup_dedupAdj (l : List Nat) (h : l.Sorted (· ≤ ·)) : (dedupAdj l).Nodup :=
  (sorted_lt_dedupAdj l h).imp Nat.ne_of_lt

theorem sorted_le_dedupAdj (l : List Nat) (h : l.Sorted (· ≤ ·)) :
    (dedupAdj l).Sorted (· ≤ ·) :=
  (sorted_lt_dedupAdj l h).imp Nat.le_of_lt

/- ### Lemmas about `removeWrites` -/

theorem mem_dropWhile_lt_of_sorted {ws : List Nat} (r : Nat) (hs : ws.Sorted (· ≤ ·)) :
    ∀ x, x ∈ ws.dropWhile (fun w => w < r) ↔ x ∈ ws ∧ r ≤ x := by
  induction ws with
  | nil => simp [List.dropWhile]
  | cons w t ih =>
    intro x
    rcases List.sorted_cons.mp hs with ⟨hw, ht⟩
    by_cases h : w < r
    · rw [List.dropWhile_cons_of_pos (by simpa using h)]
      rw [ih ht x]
      constructor
      · rintro ⟨hx, hr⟩; exact ⟨List.mem_cons_of_mem _ hx, hr⟩
      · rintro ⟨hx, hr⟩
        rcases List.mem_cons.mp hx with rfl | hx'
        · omega
        · exact ⟨hx', hr⟩
    · rw [List.dropWhile_cons_of_neg (by simpa using h)]
      constructor
      · intro hx
        refine ⟨hx, ?_⟩
        rcases List.mem_cons.mp hx with rfl | hx'
        · omega
        · have := hw x hx'; omega
      · exact fun hx => hx.1

theorem sorted_dropWhile {ws : List Nat} (p : Nat → Bool) (hs : ws.Sorted (· ≤ ·)) :
    (ws.dropWhile p).Sorted (· ≤ ·) :=
  hs.sublist (List.dropWhile_sublist p)

theorem removeWrites_eq_filter : ∀ (rs ws : List Nat), rs.Sorted (· ≤ ·) →
    ws.Sorted (· ≤ ·) →
    removeWrites rs ws = rs.filter (fun x => decide (x ∉ ws))
  | [], ws => by simp [removeWrites]
  | r :: rs, ws => by
    intro hr hw
    rcases List.sorted_cons.mp hr with ⟨hrle, hrs⟩
    have hmem : ∀ x, x ∈ ws.dropWhile (fun w => w < r) ↔ x ∈ ws ∧ r ≤ x :=
      mem_dropWhile_lt_of_sorted r hw
    have hws' : (ws.dropWhile (fun w => w < r)).Sorted (· ≤ ·) :=
      sorted_dropWhile _ hw
    -- membership in ws and in the dropped suffix agree for all elements ≥ r
    have hcongr : ∀ ws'' : List Nat,
        (∀ x, x ∈ ws'' ↔ x ∈ ws ∧ r ≤ x) →
        removeWrites rs ws'' = rs.filter (fun x => decide (x ∉ ws'')) →
        removeWrites rs ws'' = rs.filter (fun x => decide (x ∉ ws)) := by
      intro ws'' hiff heq
      rw [heq]
      apply List.filter_congr
      intro x hx
      have hrx : r ≤ x := hrle x hx
      simp only [decide_eq_decide]
      rw [hiff x]
      tauto
    rw [removeWrites]
    rcases hd : ws.dropWhile (fun w => w < r) with _ | ⟨w, t⟩
    · -- cursor exhausted: r and all later reads are not in ws
      have hrnot : r ∉ ws := by
        intro hin
        have : r ∈ ws.dropWhile (fun w => w < r) := (hmem r).mpr ⟨hin, le_refl r⟩
        rw [hd] at this; exact absurd this (List.not_mem_nil r)
      simp only []
      rw [List.filter_cons_of_pos (by simpa using hrnot)]
      congr 1
      apply hcongr []
      · intro x
        constructor
        · intro hx; exact absurd hx (List.not_mem_nil x)
        · intro hx
          have : x ∈ ws.dropWhile (fun w => w < r) := (hmem x).mpr hx
          rw [hd] at this; exact this
      · exact removeWrites_eq_filter rs [] hrs (by simp)
    · have hiff : ∀ x, x ∈ w :: t ↔ x ∈ ws ∧ r ≤ x := by
        intro x; rw [← hd]; exact hmem x
      have hwt : (w :: t).Sorted (· ≤ ·) := hd ▸ hws'
      have hrec : removeWrites rs (w :: t) = rs.filter (fun x => decide (x ∉ ws)) :=
        hcongr (w :: t) hiff (removeWrites_eq_filter rs (w :: t) hrs hwt)
      have hwin : w ∈ ws ∧ r ≤ w := (hiff w).mp (by simp)
      by_cases hwr : w = r
      · simp only [if_pos hwr]
        have hrin : r ∈ ws := hwr ▸ hwin.1
        rw [List.filter_cons_of_neg (by simp [hrin])]
        exact hrec
      · simp only [if_neg hwr]
        have hrnot : r ∉ ws := by
          intro hin
          have hrmem : r ∈ w :: t := (hiff r).mpr ⟨hin, le_refl r⟩
          rcases List.mem_cons.mp hrmem with rfl | hrt
          · exact hwr rfl
          · have h1 : w ≤ r := (List.sorted_cons.mp hwt).1 r hrt
            have h2 : r ≤ w := hwin.2
            exact hwr (le_antisymm h1 h2)
        rw [List.filter_cons_of_pos (by simpa using hrnot)]
        rw [hrec]

/- ### Characterisation of `DeduplicateNDArrayHandle` -/

theorem dedup_write_sorted_lt (reads writes : List Nat) :
    (DeduplicateNDArrayHandle reads writes).2.Sorted (· < ·) :=
  sorted_lt_dedupAdj _ (List.sorted_insertionSort _ writes)

theorem dedup_write_mem (reads writes : List Nat) (x : Nat) :
    x ∈ (DeduplicateNDArrayHandle reads writes).2 ↔ x ∈ writes := by
  unfold DeduplicateNDArrayHandle
  rw [mem_dedupAdj]
  exact (List.perm_insertionSort _ writes).mem_iff

theorem dedup_read_eq_filter (reads writes : List Nat) :
    (DeduplicateNDArrayHandle reads writes).1 =
      (dedupAdj (List.insertionSort (· ≤ ·) reads)).filter
        (fun x => decide (x ∉ dedupAdj (List.insertionSort (· ≤ ·) writes))) := by
  unfold DeduplicateNDArrayHandle
  exact removeWrites_eq_filter _ _
    (sorted_le_dedupAdj _ (List.sorted_insertionSort _ reads))
    (sorted_le_dedupAdj _ (List.sorted_insertionSort _ writes))

theorem dedup_read_mem (reads writes : List Nat) (x : Nat) :
    x ∈ (DeduplicateNDArrayHandle reads writes).1 ↔ x ∈ reads ∧ x ∉ writes := by
  rw [dedup_read_eq_filter, List.mem_filter]
  rw [mem_dedupAdj, (List.perm_insertionSort _ reads).mem_iff]
  constructor
  · rintro ⟨hr, hw⟩
    refine ⟨hr, fun hx => ?_⟩
    have : x ∈ dedupAdj (List.insertionSort (· ≤ ·) writes) := by
      rw [mem_dedupAdj, (List.perm_insertionSort _ writes).mem_iff]; exact hx
    simp [this] at hw
  · rintro ⟨hr, hw⟩
    refine ⟨hr, ?_⟩
    have : x ∉ dedupAdj (List.insertionSort (· ≤ ·) writes) := by
      rw [mem_dedupAdj, (List.perm_insertionSort _ writes).mem_iff]; exact hw
    simpa using this

theorem dedup_read_sorted_lt (reads writes : List Nat) :
    (DeduplicateNDArrayHandle reads writes).1.Sorted (· < ·) := by
  rw [dedup_read_eq_filter]
  exact (sorted_lt_dedupAdj _ (List.sorted_insertionSort _ reads)).sublist
    (List.filter_sublist _)

/--
Claim C1: after `DeduplicateNDArrayHandle`, the write-set is exactly the
deduplication of the input write-set, the read-set and write-set are
disjoint, their union is the deduplication of the input union, and a handle
present in both provisional inputs ends up only in the write-set; moreover,
for provisional reads `[A,B,A,C,B]` and writes `[B,D]` (with `A=0, B=1,
C=2, D=3`) the result is reads `[A,C]` and writes `[B,D]`.
-/
theorem dedup_spec_C1 :
    (∀ reads writes : List Nat,
      let R := (DeduplicateNDArrayHandle reads writes).1
      let W := (DeduplicateNDArrayHandle reads writes).2
      (∀ x, x ∈ W ↔ x ∈ writes) ∧ W.Nodup ∧
      (∀ x, ¬(x ∈ R ∧ x ∈ W)) ∧
      ((R ++ W).Nodup ∧ ∀ x, x ∈ R ++ W ↔ (x ∈ reads ∨ x ∈ writes)) ∧
      (∀ x, x ∈ reads → x ∈ writes → x ∈ W ∧ x ∉ R)) ∧
    DeduplicateNDArrayHandle [0, 1, 0, 2, 1] [1, 3] = ([0, 2], [1, 3]) := by
  constructor
  · intro reads writes
    have hWm := dedup_write_mem reads writes
    have hRm := dedup_read_mem reads writes
    have hWn : (DeduplicateNDArrayHandle reads writes).2.Nodup :=
      (dedup_write_sorted_lt reads writes).imp Nat.ne_of_lt
    have hRn : (DeduplicateNDArrayHandle reads writes).1.Nodup :=
      (dedup_read_sorted_lt reads writes).imp Nat.ne_of_lt
    refine ⟨hWm, hWn, ?_, ⟨?_, ?_⟩, ?_⟩
    · rintro x ⟨hR, hW⟩
      exact ((hRm x).mp hR).2 ((hWm x).mp hW)
    · rw [List.nodup_append]
      refine ⟨hRn, hWn, fun x hR hW => ?_⟩
      exact ((hRm x).mp hR).2 ((hWm x).mp hW)
    · intro x
      rw [List.mem_append, hRm x, hWm x]
      tauto
    · intro x hr hw
      refine ⟨(hWm x).mpr hw, fun hR => ?_⟩
      exact ((hRm x).mp hR).2 hw
  · show DeduplicateNDArrayHandle [0, 1, 0, 2, 1] [1, 3] = ([0, 2], [1, 3])
    have h1 : List.insertionSort (· ≤ ·) [1, 3] = [1, 3] := by decide
    have h2 : List.insertionSort (· ≤ ·) [0, 1, 0, 2, 1] = [0, 0, 1, 1, 2] := by decide
    unfold DeduplicateNDArrayHandle
    rw [h1, h2]
    norm_num [dedupAdj, removeWrites, List.dropWhile]

/--
Claim C9: dependency derivation is idempotent — applying
`DeduplicateNDArrayHandle` to its own output yields the same read-set and
write-set again.
-/
theorem dedup_idempotent_C9 (reads writes : List Nat) :
    DeduplicateNDArrayHandle (DeduplicateNDArrayHandle reads writes).1
      (DeduplicateNDArrayHandle reads writes).2 =
    DeduplicateNDArrayHandle reads writes := by
  have hRlt : (DeduplicateNDArrayHandle reads writes).1.Sorted (· < ·) :=
    dedup_read_sorted_lt reads writes
  have hWlt : (DeduplicateNDArrayHandle reads writes).2.Sorted (· < ·) :=
    dedup_write_sorted_lt reads writes
  have hRle : (DeduplicateNDArrayHandle reads writes).1.Sorted (· ≤ ·) :=
    hRlt.imp (fun h => Nat.le_of_lt h)
  have hWle : (DeduplicateNDArrayHandle reads writes).2.Sorted (· ≤ ·) :=
    hWlt.imp (fun h => Nat.le_of_lt h)
  show (removeWrites
      (dedupAdj (List.insertionSort (· ≤ ·) (DeduplicateNDArrayHandle reads writes).1))
      (dedupAdj (List.insertionSort (· ≤ ·) (DeduplicateNDArrayHandle reads writes).2)),
    dedupAdj (List.insertionSort (· ≤ ·) (DeduplicateNDArrayHandle reads writes).2)) =
    DeduplicateNDArrayHandle reads writes
  rw [hRle.insertionSort_eq, hWle.insertionSort_eq,
    dedupAdj_eq_self_of_sorted_lt _ hRlt, dedupAdj_eq_self_of_sorted_lt _ hWlt,
    removeWrites_eq_filter _ _ hRle hWle]
  have hfil : (DeduplicateNDArrayHandle reads writes).1.filter
      (fun x => decide (x ∉ (DeduplicateNDArrayHandle reads writes).2)) =
      (DeduplicateNDArrayHandle reads writes).1 := by
    rw [List.filter_eq_self]
    intro x hx
    have hm := (dedup_read_mem reads writes x).mp hx
    have hxW : x ∉ (DeduplicateNDArrayHandle reads writes).2 := fun hw =>
      hm.2 ((dedup_write_mem reads writes x).mp hw)
    simpa using hxW
  rw [hfil]

/--
Claim C10: the read-set and write-set produced by
`DeduplicateNDArrayHandle` are each sorted in strictly increasing handle
order.
-/
theorem dedup_sorted_C10 (reads writes : List Nat) :
    (DeduplicateNDArrayHandle reads writes).1.Sorted (· < ·) ∧
    (DeduplicateNDArrayHandle reads writes).2.Sorted (· < ·) :=
  ⟨dedup_read_sorted_lt reads writes, dedup_write_sorted_lt reads writes⟩

/- ### `TVMFunctor::Run` claims -/

theorem injective_runEvent_delete : Function.Injective RunEvent.delete := by
  intro a b h
  injection h

theorem filter_map_eq_nil {α β : Type} (p : β → Bool) (f : α → β) (l : List α)
    (h : ∀ a, p (f a) = false) : (l.map f).filter p = [] := by
  induction l with
  | nil => rfl
  | cons a t ih => simp [List.filter_cons, h a, ih]

theorem filter_map_eq_self {α β : Type} (p : β → Bool) (f : α → β) (l : List α)
    (h : ∀ a, p (f a) = true) : (l.map f).filter p = l.map f := by
  induction l with
  | nil => rfl
  | cons a t ih => simp [List.filter_cons, h a, ih]

/--
Claim C4: on a GPU-context `Run` the stream setter is invoked exactly
twice — first with (GPU device type, the run context's device id, the
stream pointer read through the run context's stream indirection) before
the user function, then with a null stream after it; on a CPU-context
`Run` the user function is invoked directly and the stream setter is never
invoked.
-/
theorem run_stream_C4 (env : Env) (f : FunctorState) (rctx : RunContext) :
    (f.ctx.dev_type = Context.kGPU →
      (TVMFunctor.Run env f rctx).1 =
        (f.array_handle.map fun h => RunEvent.produce h (env.toDLPack h)) ++
        [RunEvent.setStream kDLGPU rctx.ctx.dev_id (some (env.readPtr rctx.stream)),
         RunEvent.callUser,
         RunEvent.setStream kDLGPU rctx.ctx.dev_id none] ++
        (f.array_handle.map env.toDLPack).map RunEvent.delete ∧
      (TVMFunctor.Run env f rctx).1.filter RunEvent.isSetStream =
        [RunEvent.setStream kDLGPU rctx.ctx.dev_id (some (env.readPtr rctx.stream)),
         RunEvent.setStream kDLGPU rctx.ctx.dev_id none]) ∧
    (f.ctx.dev_type = Context.kCPU →
      (TVMFunctor.Run env f rctx).1 =
        (f.array_handle.map fun h => RunEvent.produce h (env.toDLPack h)) ++
        [RunEvent.callUser] ++
        (f.array_handle.map env.toDLPack).map RunEvent.delete ∧
      ∀ a b s, RunEvent.setStream a b s ∉ (TVMFunctor.Run env f rctx).1) := by
  constructor
  · intro hgpu
    have htr : (TVMFunctor.Run env f rctx).1 =
        (f.array_handle.map fun h => RunEvent.produce h (env.toDLPack h)) ++
        [RunEvent.setStream kDLGPU rctx.ctx.dev_id (some (env.readPtr rctx.stream)),
         RunEvent.callUser,
         RunEvent.setStream kDLGPU rctx.ctx.dev_id none] ++
        (f.array_handle.map env.toDLPack).map RunEvent.delete := by
      unfold TVMFunctor.Run
      rw [if_pos hgpu]
    refine ⟨htr, ?_⟩
    rw [htr]
    simp [List.filter_append, List.filter_map, RunEvent.isSetStream, Function.comp_def]
  · intro hcpu
    have hne : ¬ f.ctx.dev_type = Context.kGPU := by
      rw [hcpu]; unfold Context.kCPU Context.kGPU; omega
    have htr : (TVMFunctor.Run env f rctx).1 =
        (f.array_handle.map fun h => RunEvent.produce h (env.toDLPack h)) ++
        [RunEvent.callUser] ++
        (f.array_handle.map env.toDLPack).map RunEvent.delete := by
      unfold TVMFunctor.Run
      rw [if_neg hne]
    refine ⟨htr, ?_⟩
    intro a b s
    rw [htr]
    simp [List.mem_append, List.mem_map]

/--
Claim C7: every `Run` produces exactly one managed tensor per stored
tensor handle, and (when the produced managed tensors are distinct) the
deleter of each managed tensor is invoked exactly once, after the user
function returns and before `Run` returns: all deleter events follow the
user-function event in the trace.
-/
theorem run_deleter_C7 (env : Env) (f : FunctorState) (rctx : RunContext)
    (hnd : (f.array_handle.map env.toDLPack).Nodup) :
    (TVMFunctor.Run env f rctx).1.filter RunEvent.isProduce =
      (f.array_handle.map fun h => RunEvent.produce h (env.toDLPack h)) ∧
    (∀ d ∈ f.array_handle.map env.toDLPack,
      (TVMFunctor.Run env f rctx).1.count (RunEvent.delete d) = 1) ∧
    ∃ A B, (TVMFunctor.Run env f rctx).1 = A ++ RunEvent.callUser :: B ∧
      (∀ d, RunEvent.delete d ∉ A) ∧
      B.filter RunEvent.isDelete =
        (f.array_handle.map env.toDLPack).map RunEvent.delete := by
  have hcount : ∀ d ∈ f.array_handle.map env.toDLPack,
      ((f.array_handle.map env.toDLPack).map RunEvent.delete).count (RunEvent.delete d) = 1 := by
    intro d hd
    rw [List.count_map_of_injective _ _ injective_runEvent_delete]
    exact List.count_eq_one_of_mem hnd hd
  unfold TVMFunctor.Run
  by_cases hgpu : f.ctx.dev_type = Context.kGPU
  · rw [if_pos hgpu]
    refine ⟨?_, ?_, ?_⟩
    · rw [List.filter_append, List.filter_append,
        filter_map_eq_self RunEvent.isProduce
          (fun h => RunEvent.produce h (env.toDLPack h)) f.array_handle (fun a => rfl),
        filter_map_eq_nil RunEvent.isProduce RunEvent.delete _ (fun a => rfl)]
      simp [List.filter_cons, RunEvent.isProduce]
    · intro d hd
      simp only [List.count_append]
      rw [hcount d hd]
      have h1 : ((f.array_handle.map fun h => RunEvent.produce h (env.toDLPack h)).count
          (RunEvent.delete d)) = 0 := by
        rw [List.count_eq_zero]
        simp [List.mem_map]
      rw [h1]
      simp [List.count_cons, List.count_nil]
    · refine ⟨(f.array_handle.map fun h => RunEvent.produce h (env.toDLPack h)) ++
        [RunEvent.setStream kDLGPU rctx.ctx.dev_id (some (env.readPtr rctx.stream))],
        RunEvent.setStream kDLGPU rctx.ctx.dev_id none ::
          (f.array_handle.map env.toDLPack).map RunEvent.delete, ?_, ?_, ?_⟩
      · simp
      · intro d
        simp [List.mem_append, List.mem_map]
      · rw [List.filter_cons_of_neg (by simp [RunEvent.isDelete])]
        exact filter_map_eq_self RunEvent.isDelete RunEvent.delete _ (fun a => rfl)
  · rw [if_neg hgpu]
    refine ⟨?_, ?_, ?_⟩
    · rw [List.filter_append, List.filter_append,
        filter_map_eq_self RunEvent.isProduce
          (fun h => RunEvent.produce h (env.toDLPack h)) f.array_handle (fun a => rfl),
        filter_map_eq_nil RunEvent.isProduce RunEvent.delete _ (fun a => rfl)]
      simp [List.filter_cons, RunEvent.isProduce]
    · intro d hd
      simp only [List.count_append]
      rw [hcount d hd]
      have h1 : ((f.array_handle.map fun h => RunEvent.produce h (env.toDLPack h)).count
          (RunEvent.delete d)) = 0 := by
        rw [List.count_eq_zero]
        simp [List.mem_map]
      rw [h1]
      simp [List.count_cons, List.count_nil]
    · refine ⟨f.array_handle.map fun h => RunEvent.produce h (env.toDLPack h),
        (f.array_handle.map env.toDLPack).map RunEvent.delete, ?_, ?_, ?_⟩
      · simp
      · intro d
        simp [List.mem_map]
      · exact filter_map_eq_self RunEvent.isDelete RunEvent.delete _ (fun a => rfl)

/-- Closed instantiation of `run_deleter_C7` at a concrete functor with
two tensor handles on CPU. -/
theorem run_deleter_C7_witness :
    (TVMFunctor.Run ⟨id, fun _ => (1, 0), id, id⟩
        ⟨[TVMValue.vHandle 4, TVMValue.vHandle 9], [kArrayHandle, kArrayHandle],
          [4, 9], [0, 1], ⟨Context.kCPU, 0⟩⟩ ⟨⟨Context.kCPU, 0⟩, 0⟩).1.filter
      RunEvent.isProduce = [RunEvent.produce 4 4, RunEvent.produce 9 9] ∧
    (∀ d ∈ [4, 9],
      (TVMFunctor.Run ⟨id, fun _ => (1, 0), id, id⟩
        ⟨[TVMValue.vHandle 4, TVMValue.vHandle 9], [kArrayHandle, kArrayHandle],
          [4, 9], [0, 1], ⟨Context.kCPU, 0⟩⟩ ⟨⟨Context.kCPU, 0⟩, 0⟩).1.count
        (RunEvent.delete d) = 1) := by
  have h := run_deleter_C7 ⟨id, fun _ => (1, 0), id, id⟩
    ⟨[TVMValue.vHandle 4, TVMValue.vHandle 9], [kArrayHandle, kArrayHandle],
      [4, 9], [0, 1], ⟨Context.kCPU, 0⟩⟩ ⟨⟨Context.kCPU, 0⟩, 0⟩ (by decide)
  refine ⟨?_, ?_⟩
  · have := h.1
    simpa using this
  · intro d hd
    have := h.2.1 d (by simpa using hd)
    simpa using this

/-- Closed instantiation of `run_stream_C4`: on a GPU functor the stream
setter fires exactly twice with the dereferenced stream then null, and on
a CPU functor never. -/
theorem run_stream_C4_witness :
    (TVMFunctor.Run ⟨id, fun _ => (2, 3), id, fun p => p + 50⟩
        ⟨[TVMValue.vHandle 4], [kArrayHandle], [4], [0], ⟨Context.kGPU, 3⟩⟩
        ⟨⟨Context.kGPU, 3⟩, 7⟩).1.filter RunEvent.isSetStream =
      [RunEvent.setStream kDLGPU 3 (some 57), RunEvent.setStream kDLGPU 3 none] ∧
    (∀ a b s, RunEvent.setStream a b s ∉
      (TVMFunctor.Run ⟨id, fun _ => (1, 0), id, id⟩
        ⟨[TVMValue.vHandle 4], [kArrayHandle], [4], [0], ⟨Context.kCPU, 0⟩⟩
        ⟨⟨Context.kCPU, 0⟩, 0⟩).1) := by
  constructor
  · have h := (run_stream_C4 ⟨id, fun _ => (2, 3), id, fun p => p + 50⟩
      ⟨[TVMValue.vHandle 4], [kArrayHandle], [4], [0], ⟨Context.kGPU, 3⟩⟩
      ⟨⟨Context.kGPU, 3⟩, 7⟩).1 rfl
    simpa using h.2
  · have h := (run_stream_C4 ⟨id, fun _ => (1, 0), id, id⟩
      ⟨[TVMValue.vHandle 4], [kArrayHandle], [4], [0], ⟨Context.kCPU, 0⟩⟩
      ⟨⟨Context.kCPU, 0⟩, 0⟩).2 rfl
    exact h.2

/- ### Registry claims -/

/--
Claim C3: for every name, looking the name up twice in the registry
returns the same wrapped function both times, the second call leaves the
registry unchanged (the second user function and const positions are
ignored), and when the name was previously absent the returned wrapping —
and hence the behaviour of every wrapped invocation — is the one built
from the first user function.
-/
theorem registry_stable_C3 {α : Type} (reg : List (String × Wrapped α)) (name : String)
    (f1 f2 : α) (cl1 cl2 : List Nat) :
    (GetMXNetFunc reg name f1 cl1).1 =
      (GetMXNetFunc (GetMXNetFunc reg name f1 cl1).2 name f2 cl2).1 ∧
    (GetMXNetFunc (GetMXNetFunc reg name f1 cl1).2 name f2 cl2).2 =
      (GetMXNetFunc reg name f1 cl1).2 ∧
    (reg.lookup name = none →
      (GetMXNetFunc reg name f1 cl1).1 = WrapAsyncCall f1 cl1 ∧
      (GetMXNetFunc (GetMXNetFunc reg name f1 cl1).2 name f2 cl2).1 =
        WrapAsyncCall f1 cl1 ∧
      ∀ (env : Env) (values : List TVMValue) (type_codes : List Int),
        wrappedCall env (GetMXNetFunc (GetMXNetFunc reg name f1 cl1).2 name f2 cl2).1
            values type_codes =
          wrappedCall env (WrapAsyncCall f1 cl1) values type_codes) := by
  rcases h : reg.lookup name with _ | w
  · have hself : ((name, WrapAsyncCall f1 cl1) :: reg).lookup name =
        some (WrapAsyncCall f1 cl1) := by
      simp [List.lookup]
    refine ⟨?_, ?_, ?_⟩
    · simp [GetMXNetFunc, h, hself]
    · simp [GetMXNetFunc, h, hself]
    · intro _
      refine ⟨by simp [GetMXNetFunc, h], by simp [GetMXNetFunc, h, hself], ?_⟩
      intro env values type_codes
      have : (GetMXNetFunc (GetMXNetFunc reg name f1 cl1).2 name f2 cl2).1 =
          WrapAsyncCall f1 cl1 := by simp [GetMXNetFunc, h, hself]
      rw [this]
  · refine ⟨?_, ?_, ?_⟩
    · simp [GetMXNetFunc, h]
    · simp [GetMXNetFunc, h]
    · intro hc
      exact absurd hc (by simp)

/-- Closed instantiation of `registry_stable_C3` on an empty registry:
the two lookups agree and return the wrapping of the first function. -/
theorem registry_stable_C3_witness :
    (GetMXNetFunc ([] : List (String × Wrapped Nat)) "conv_fwd" 1 [0]).1 =
      (GetMXNetFunc (GetMXNetFunc ([] : List (String × Wrapped Nat))
        "conv_fwd" 1 [0]).2 "conv_fwd" 2 [1]).1 ∧
    (GetMXNetFunc (GetMXNetFunc ([] : List (String × Wrapped Nat))
        "conv_fwd" 1 [0]).2 "conv_fwd" 2 [1]).1 = WrapAsyncCall 1 [0] := by
  refine ⟨(registry_stable_C3 [] "conv_fwd" 1 2 [0] [1]).1, ?_⟩
  exact ((registry_stable_C3 [] "conv_fwd" 1 2 [0] [1]).2.2 rfl).2.1

/- ### Helper lemmas for the `Init` walk -/

theorem map_eq_ok {ε α β : Type} {f : α → β} {x : Except ε α} {b : β}
    (h : x.map f = .ok b) : ∃ a, x = .ok a ∧ f a = b := by
  cases x with
  | error e => simp [Except.map] at h
  | ok a =>
    simp [Except.map] at h
    exact ⟨a, rfl, h⟩

theorem map_eq_error {ε α β : Type} {f : α → β} {x : Except ε α} {e : ε} :
    x.map f = .error e ↔ x = .error e := by
  cases x with
  | error e' => simp [Except.map]
  | ok a => simp [Except.map]

theorem initLoop_cons_tensor (env : Env) (code : Int) (v : TVMValue)
    (rest : List (Int × TVMValue)) (i : Nat) (cl : List Nat) (ctx : Context)
    (hcode : code = kTVMNDArrayTypeCode) :
    initLoop env ((code, v) :: rest) i cl ctx =
      match ctxCheck ctx (env.getContext (env.shallowCopy v.v_handle)) with
      | .error e => .error e
      | .ok _ =>
        (initLoop env rest (i + 1) (cursorStep i cl).2
            ⟨(env.getContext (env.shallowCopy v.v_handle)).1,
              (env.getContext (env.shallowCopy v.v_handle)).2⟩).map
          (consTensor (env.shallowCopy v.v_handle) i (cursorStep i cl).1) := by
  subst hcode
  rfl

theorem initLoop_cons_pod (env : Env) (code : Int) (v : TVMValue)
    (rest : List (Int × TVMValue)) (i : Nat) (cl : List Nat) (ctx : Context)
    (hcode : code ≠ kTVMNDArrayTypeCode) (hlt : code < kTVMType) :
    initLoop env ((code, v) :: rest) i cl ctx =
      (initLoop env rest (i + 1) cl ctx).map fun o =>
        { o with type_codes := code :: o.type_codes } := by
  simp [initLoop, hcode, hlt]

theorem initLoop_cons_bad (env : Env) (code : Int) (v : TVMValue)
    (rest : List (Int × TVMValue)) (i : Nat) (cl : List Nat) (ctx : Context)
    (hcode : code ≠ kTVMNDArrayTypeCode) (hge : ¬ code < kTVMType) :
    initLoop env ((code, v) :: rest) i cl ctx = .error (.nonPOD code) := by
  simp [initLoop, hcode, hge]

theorem getD_map_of_lt {α β : Type} (f : α → β) :
    ∀ (l : List α) (p : Nat) (d : α) (d' : β), p < l.length →
      (l.map f).getD p d' = f (l.getD p d)
  | [], p, d, d' => by intro h; simp at h
  | a :: t, 0, d, d' => by intro _; simp
  | a :: t, p + 1, d, d' => by
    intro h
    simp only [List.map_cons, List.getD_cons_succ]
    exact getD_map_of_lt f t p d d' (by simpa using h)

theorem initLoop_ok_codes_locs (env : Env) :
    ∀ (l : List (Int × TVMValue)) (i : Nat) (cl : List Nat) (ctx : Context)
      (o : LoopOut), initLoop env l i cl ctx = .ok o →
      o.type_codes =
        l.map (fun e => if e.1 = kTVMNDArrayTypeCode then kArrayHandle else e.1) ∧
      o.array_loc = tensorLocs i l
  | [], i, cl, ctx, o => by
    intro h
    simp only [initLoop, Except.ok.injEq] at h
    rw [← h]
    exact ⟨rfl, rfl⟩
  | (code, v) :: rest, i, cl, ctx, o => by
    intro h
    by_cases hcode : code = kTVMNDArrayTypeCode
    · rw [initLoop_cons_tensor env code v rest i cl ctx hcode] at h
      rcases hc : ctxCheck ctx (env.getContext (env.shallowCopy v.v_handle)) with e | u
      · rw [hc] at h
        exact absurd h (by simp)
      · rw [hc] at h
        obtain ⟨o', ho', hco⟩ := map_eq_ok h
        obtain ⟨ih1, ih2⟩ := initLoop_ok_codes_locs env rest (i + 1) (cursorStep i cl).2 _ o' ho'
        rw [← hco]
        constructor
        · simp [consTensor, ih1, hcode]
        · simp [consTensor, ih2, tensorLocs, hcode]
    · by_cases hlt : code < kTVMType
      · rw [initLoop_cons_pod env code v rest i cl ctx hcode hlt] at h
        obtain ⟨o', ho', hco⟩ := map_eq_ok h
        obtain ⟨ih1, ih2⟩ := initLoop_ok_codes_locs env rest (i + 1) cl ctx o' ho'
        rw [← hco]
        constructor
        · simp [ih1, hcode]
        · simp [ih2, tensorLocs, hcode]
      · rw [initLoop_cons_bad env code v rest i cl ctx hcode hlt] at h
        exact absurd h (by simp)

theorem mem_tensorLocs : ∀ (l : List (Int × TVMValue)) (i p : Nat),
    p ∈ tensorLocs i l ↔
      ∃ j, j < l.length ∧ p = i + j ∧
        (l.map Prod.fst).getD j 0 = kTVMNDArrayTypeCode
  | [], i, p => by simp [tensorLocs]
  | (code, v) :: rest, i, p => by
    by_cases hcode : code = kTVMNDArrayTypeCode
    · simp only [tensorLocs, if_pos hcode, List.mem_cons]
      rw [mem_tensorLocs rest (i + 1) p]
      constructor
      · rintro (rfl | ⟨j, hj, rfl, hget⟩)
        · exact ⟨0, by simp, by omega, by simpa using hcode⟩
        · exact ⟨j + 1, by simp only [List.length_cons]; omega, by omega, by simpa using hget⟩
      · rintro ⟨j, hj, rfl, hget⟩
        cases j with
        | zero => left; omega
        | succ j' =>
          right
          refine ⟨j', by simp only [List.length_cons] at hj; omega, by omega, ?_⟩
          simpa using hget
    · simp only [tensorLocs, if_neg hcode]
      rw [mem_tensorLocs rest (i + 1) p]
      constructor
      · rintro ⟨j, hj, rfl, hget⟩
        exact ⟨j + 1, by simp only [List.length_cons]; omega, by omega, by simpa using hget⟩
      · rintro ⟨j, hj, rfl, hget⟩
        cases j with
        | zero =>
          exfalso
          simp only [List.map_cons, List.getD_cons_zero] at hget
          exact hcode hget
        | succ j' =>
          refine ⟨j', by simp only [List.length_cons] at hj; omega, by omega, ?_⟩
          simpa using hget

/- ### Claim C6 -/

/--
Claim C6: after a successful `Init` the stored type-code buffer differs
from the input exactly at the positions recorded in `array_loc`: every
position in `array_loc` holds the DLPack-tensor tag after `Init`, every
other slot keeps its input type code, and the values buffer is preserved
unchanged.
-/
theorem init_retag_C6 (env : Env) (values : List TVMValue) (tcs : List Int)
    (cl : List Nat) (res : InitResult) (hlen : values.length = tcs.length)
    (hok : TVMFunctor.Init env values tcs cl = .ok res) :
    res.values = values ∧
    res.type_codes.length = tcs.length ∧
    (∀ p, p ∈ res.array_loc ↔
      p < tcs.length ∧ tcs.getD p 0 = kTVMNDArrayTypeCode) ∧
    (∀ p, p ∈ res.array_loc → res.type_codes.getD p 0 = kArrayHandle) ∧
    (∀ p, p < tcs.length → p ∉ res.array_loc →
      res.type_codes.getD p 0 = tcs.getD p 0) ∧
    (∀ p, p < tcs.length →
      (res.type_codes.getD p 0 ≠ tcs.getD p 0 ↔ p ∈ res.array_loc)) := by
  obtain ⟨o, ho, hres⟩ := map_eq_ok hok
  obtain ⟨hcodes, hlocs⟩ := initLoop_ok_codes_locs env _ 0 cl ⟨0, -1⟩ o ho
  have hfst : (tcs.zip values).map Prod.fst = tcs :=
    List.map_fst_zip tcs values (le_of_eq hlen.symm)
  have hzlen : (tcs.zip values).length = tcs.length := by
    rw [List.length_zip, hlen, Nat.min_self]
  have hcodes' : o.type_codes =
      tcs.map (fun c => if c = kTVMNDArrayTypeCode then kArrayHandle else c) := by
    rw [hcodes]
    conv_rhs => rw [← hfst, List.map_map]
    rfl
  have hmem : ∀ p, p ∈ o.array_loc ↔
      p < tcs.length ∧ tcs.getD p 0 = kTVMNDArrayTypeCode := by
    intro p
    rw [hlocs, mem_tensorLocs]
    constructor
    · rintro ⟨j, hj, rfl, hget⟩
      rw [hfst] at hget
      simp only [Nat.zero_add]
      exact ⟨by omega, hget⟩
    · rintro ⟨hp, hget⟩
      exact ⟨p, by omega, by omega, by rw [hfst]; exact hget⟩
  have hvals : res.values = values := by rw [← hres]
  have htc : res.type_codes = o.type_codes := by rw [← hres]
  have hal : res.array_loc = o.array_loc := by rw [← hres]
  have hgetD : ∀ p, p < tcs.length → res.type_codes.getD p 0 =
      (if tcs.getD p 0 = kTVMNDArrayTypeCode then kArrayHandle else tcs.getD p 0) := by
    intro p hp
    rw [htc, hcodes']
    have := getD_map_of_lt
      (fun c => if c = kTVMNDArrayTypeCode then kArrayHandle else c) tcs p 0 0 hp
    simpa using this
  refine ⟨hvals, ?_, ?_, ?_, ?_, ?_⟩
  · rw [htc, hcodes', List.length_map]
  · intro p
    rw [hal]
    exact hmem p
  · intro p hp
    have hm := (hmem p).mp (hal ▸ hp)
    rw [hgetD p hm.1, if_pos hm.2]
  · intro p hp hnot
    have hm : ¬(p < tcs.length ∧ tcs.getD p 0 = kTVMNDArrayTypeCode) := by
      intro hcontra
      exact (hal ▸ hnot) ((hmem p).mpr hcontra)
    have hne : tcs.getD p 0 ≠ kTVMNDArrayTypeCode := fun heq => hm ⟨hp, heq⟩
    rw [hgetD p hp, if_neg hne]
  · intro p hp
    constructor
    · intro hne
      rw [hal]
      refine (hmem p).mpr ⟨hp, ?_⟩
      by_contra hcontra
      rw [hgetD p hp, if_neg hcontra] at hne
      exact hne rfl
    · intro hin
      have hm := (hmem p).mp (hal ▸ hin)
      rw [hgetD p hp, if_pos hm.2, hm.2]
      unfold kArrayHandle kTVMNDArrayTypeCode
      omega

/-- Closed instantiation of `init_retag_C6` at a call with arguments
`(tensor H0, int64 k, float s)`: only position 0 is retagged. -/
theorem init_retag_C6_witness :
    ∃ res, TVMFunctor.Init ⟨id, fun _ => (1, 0), id, id⟩
        [TVMValue.vHandle 4, TVMValue.vInt 3, TVMValue.vFloat 2]
        [kTVMNDArrayTypeCode, 0, 2] [0] = .ok res ∧
      res.type_codes.getD 0 0 = kArrayHandle ∧
      res.type_codes.getD 1 0 = 0 ∧
      res.type_codes.getD 2 0 = 2 := by
  have hok : TVMFunctor.Init ⟨id, fun _ => (1, 0), id, id⟩
      [TVMValue.vHandle 4, TVMValue.vInt 3, TVMValue.vFloat 2]
      [kTVMNDArrayTypeCode, 0, 2] [0] =
      .ok ⟨[TVMValue.vHandle 4, TVMValue.vInt 3, TVMValue.vFloat 2],
        [kArrayHandle, 0, 2], [4], [0], ⟨1, 0⟩, [4], []⟩ := by rfl
  have h := init_retag_C6 ⟨id, fun _ => (1, 0), id, id⟩
    [TVMValue.vHandle 4, TVMValue.vInt 3, TVMValue.vFloat 2]
    [kTVMNDArrayTypeCode, 0, 2] [0] _ (by decide) hok
  refine ⟨_, hok, ?_, ?_, ?_⟩
  · exact h.2.2.2.1 0 (by decide)
  · have := h.2.2.2.2.1 1 (by decide) (by decide)
    exact this
  · have := h.2.2.2.2.1 2 (by decide) (by decide)
    exact this

/- ### Claim C8 -/

theorem initLoop_not_ok_of_bad (env : Env) :
    ∀ (l : List (Int × TVMValue)) (i : Nat) (cl : List Nat) (ctx : Context),
      (∃ e ∈ l, e.1 ≠ kTVMNDArrayTypeCode ∧ ¬ e.1 < kTVMType) →
      ∀ o, initLoop env l i cl ctx ≠ .ok o
  | [], i, cl, ctx => by
    rintro ⟨e, he, _⟩ o
    exact absurd he (List.not_mem_nil e)
  | (code, v) :: rest, i, cl, ctx => by
    rintro ⟨e, he, hbad⟩ o h
    by_cases hcode : code = kTVMNDArrayTypeCode
    · rw [initLoop_cons_tensor env code v rest i cl ctx hcode] at h
      rcases hc : ctxCheck ctx (env.getContext (env.shallowCopy v.v_handle)) with e' | u
      · rw [hc] at h
        exact absurd h (by simp)
      · rw [hc] at h
        obtain ⟨o', ho', _⟩ := map_eq_ok h
        have hbad' : ∃ e ∈ rest, e.1 ≠ kTVMNDArrayTypeCode ∧ ¬ e.1 < kTVMType := by
          rcases List.mem_cons.mp he with rfl | hrest
          · exact absurd hcode hbad.1
          · exact ⟨e, hrest, hbad⟩
        exact initLoop_not_ok_of_bad env rest (i + 1) (cursorStep i cl).2 _ hbad' o' ho'
    · by_cases hlt : code < kTVMType
      · rw [initLoop_cons_pod env code v rest i cl ctx hcode hlt] at h
        obtain ⟨o', ho', _⟩ := map_eq_ok h
        have hbad' : ∃ e ∈ rest, e.1 ≠ kTVMNDArrayTypeCode ∧ ¬ e.1 < kTVMType := by
          rcases List.mem_cons.mp he with rfl | hrest
          · exact absurd hlt hbad.2
          · exact ⟨e, hrest, hbad⟩
        exact initLoop_not_ok_of_bad env rest (i + 1) cl ctx hbad' o' ho'
      · rw [initLoop_cons_bad env code v rest i cl ctx hcode hlt] at h
        exact absurd h (by simp)

theorem ctxCheck_error_shape (ctx : Context) (dc : Int × Int) (e : InitError)
    (h : ctxCheck ctx dc = .error e) : ∃ c t1 t2, e = .inconsistent c t1 t2 := by
  unfold ctxCheck at h
  by_cases h1 : ctx.dev_id = -1
  · rw [if_pos h1] at h
    exact absurd h (by simp)
  · rw [if_neg h1] at h
    by_cases h2 : dc.1 = ctx.dev_type ∧ dc.2 = ctx.dev_id
    · rw [if_pos h2] at h
      exact absurd h (by simp)
    · rw [if_neg h2] at h
      have heq : InitError.inconsistent ctx dc.1 dc.2 = e := by simpa using h
      exact ⟨ctx, dc.1, dc.2, heq.symm⟩

theorem initLoop_no_nonPOD (env : Env) :
    ∀ (l : List (Int × TVMValue)) (i : Nat) (cl : List Nat) (ctx : Context),
      (∀ e ∈ l, e.1 = kTVMNDArrayTypeCode ∨ e.1 < kTVMType) →
      ∀ c, initLoop env l i cl ctx ≠ .error (.nonPOD c)
  | [], i, cl, ctx => by
    intro _ c h
    simp [initLoop] at h
  | (code, v) :: rest, i, cl, ctx => by
    intro hgood c h
    by_cases hcode : code = kTVMNDArrayTypeCode
    · rw [initLoop_cons_tensor env code v rest i cl ctx hcode] at h
      rcases hc : ctxCheck ctx (env.getContext (env.shallowCopy v.v_handle)) with e | u
      · rw [hc] at h
        have he : e = InitError.nonPOD c := by simpa using h
        obtain ⟨c', t1, t2, heq⟩ := ctxCheck_error_shape ctx _ e hc
        rw [he] at heq
        exact absurd heq (by simp)
      · rw [hc] at h
        have h' := map_eq_error.mp h
        exact initLoop_no_nonPOD env rest (i + 1) (cursorStep i cl).2 _
          (fun e he => hgood e (List.mem_cons_of_mem _ he)) c h'
    · by_cases hlt : code < kTVMType
      · rw [initLoop_cons_pod env code v rest i cl ctx hcode hlt] at h
        have h' := map_eq_error.mp h
        exact initLoop_no_nonPOD env rest (i + 1) cl ctx
          (fun e he => hgood e (List.mem_cons_of_mem _ he)) c h'
      · rcases hgood (code, v) (by simp) with hh | hh
        · exact hcode hh
        · exact hlt hh

/--
Claim C8: if some argument slot's type code is neither the
framework-tensor code nor below the `kTVMType` sentinel, `Init` fails
fatally and never returns a populated functor; conversely, when every
slot's code is the tensor code or lies below the sentinel, the `CHECK_LT`
assertion branch (`nonPOD` exit) is never taken.
-/
theorem init_pod_check_C8 (env : Env) (values : List TVMValue) (tcs : List Int)
    (cl : List Nat) (hlen : values.length = tcs.length) :
    ((∃ c ∈ tcs, c ≠ kTVMNDArrayTypeCode ∧ ¬ c < kTVMType) →
      ∀ res, TVMFunctor.Init env values tcs cl ≠ .ok res) ∧
    ((∀ c ∈ tcs, c = kTVMNDArrayTypeCode ∨ c < kTVMType) →
      ∀ c, TVMFunctor.Init env values tcs cl ≠ .error (.nonPOD c)) := by
  have hfst : (tcs.zip values).map Prod.fst = tcs :=
    List.map_fst_zip tcs values (le_of_eq hlen.symm)
  constructor
  · rintro ⟨c, hc, hbad⟩ res h
    unfold TVMFunctor.Init at h
    obtain ⟨o, ho, _⟩ := map_eq_ok h
    have hc' : c ∈ (tcs.zip values).map Prod.fst := by rw [hfst]; exact hc
    obtain ⟨e, he, hfst'⟩ := List.mem_map.mp hc'
    refine initLoop_not_ok_of_bad env (tcs.zip values) 0 cl ⟨0, -1⟩
      ⟨e, he, ?_, ?_⟩ o ho
    · rw [hfst']; exact hbad.1
    · rw [hfst']; exact hbad.2
  · intro hgood c h
    unfold TVMFunctor.Init at h
    have h' := map_eq_error.mp h
    refine initLoop_no_nonPOD env (tcs.zip values) 0 cl ⟨0, -1⟩ ?_ c h'
    intro e he
    apply hgood
    rw [← hfst]
    exact List.mem_map_of_mem Prod.fst he

/-- Closed instantiation of `init_pod_check_C8`: a slot with code 10
(neither tensor nor below the sentinel) makes `Init` fail, and a call
whose slots are all POD or tensor never takes the assertion branch. -/
theorem init_pod_check_C8_witness :
    (∀ res, TVMFunctor.Init ⟨id, fun _ => (1, 0), id, id⟩
      [TVMValue.vInt 0] [10] [] ≠ .ok res) ∧
    (∀ c, TVMFunctor.Init ⟨id, fun _ => (1, 0), id, id⟩
      [TVMValue.vInt 0] [0] [] ≠ .error (.nonPOD c)) := by
  constructor
  · exact (init_pod_check_C8 ⟨id, fun _ => (1, 0), id, id⟩
      [TVMValue.vInt 0] [10] [] (by decide)).1 ⟨10, by decide, by decide, by decide⟩
  · exact (init_pod_check_C8 ⟨id, fun _ => (1, 0), id, id⟩
      [TVMValue.vInt 0] [0] [] (by decide)).2 (by decide)

/- ### Claim C2 -/

theorem mem_cons_cons_iff {α : Type} (a x : α) (L : List α) :
    a ∈ x :: x :: L ↔ a ∈ x :: L := by
  simp only [List.mem_cons]
  tauto

theorem initLoop_inconsistent (env : Env) :
    ∀ (l : List (Int × TVMValue)) (i : Nat) (cl : List Nat) (ctx : Context),
      (∀ e ∈ l, e.1 = kTVMNDArrayTypeCode ∨ e.1 < kTVMType) →
      (∀ p ∈ tensorCtxs env l, p.2 ≠ -1) →
      (∃ a ∈ armedCtx ctx ++ tensorCtxs env l,
        ∃ b ∈ armedCtx ctx ++ tensorCtxs env l, a ≠ b) →
      ∃ c t1 t2, initLoop env l i cl ctx = .error (.inconsistent c t1 t2) ∧
        (c.dev_type, c.dev_id) ∈ armedCtx ctx ++ tensorCtxs env l ∧
        (t1, t2) ∈ armedCtx ctx ++ tensorCtxs env l ∧
        (c.dev_type, c.dev_id) ≠ (t1, t2)
  | [], i, cl, ctx => by
    intro _ _ hne
    exfalso
    obtain ⟨a, ha, b, hb, hab⟩ := hne
    by_cases hnew : ctx.dev_id = -1
    · simp [tensorCtxs, armedCtx, hnew] at ha
    · simp [tensorCtxs, armedCtx, hnew] at ha hb
      rw [ha, hb] at hab
      exact hab rfl
  | (code, v) :: rest, i, cl, ctx => by
    intro hgood hsent hne
    by_cases hcode : code = kTVMNDArrayTypeCode
    · rw [initLoop_cons_tensor env code v rest i cl ctx hcode]
      have hT : tensorCtxs env ((code, v) :: rest) =
          env.getContext (env.shallowCopy v.v_handle) :: tensorCtxs env rest := by
        simp [tensorCtxs, hcode]
      have hd1 : (env.getContext (env.shallowCopy v.v_handle)).2 ≠ -1 := by
        apply hsent
        rw [hT]
        exact List.mem_cons_self _ _
      have hsent' : ∀ p ∈ tensorCtxs env rest, p.2 ≠ -1 := fun p hp =>
        hsent p (by rw [hT]; exact List.mem_cons_of_mem _ hp)
      by_cases hnew : ctx.dev_id = -1
      · simp only [ctxCheck, if_pos hnew]
        obtain ⟨c, t1, t2, herr, hm1, hm2, h12⟩ :=
          initLoop_inconsistent env rest (i + 1) (cursorStep i cl).2
            ⟨(env.getContext (env.shallowCopy v.v_handle)).1,
              (env.getContext (env.shallowCopy v.v_handle)).2⟩
            (fun e he => hgood e (List.mem_cons_of_mem _ he)) hsent'
            (by simpa [hT, armedCtx, hnew, hd1] using hne)
        refine ⟨c, t1, t2, map_eq_error.mpr herr, ?_, ?_, h12⟩
        · simpa [hT, armedCtx, hnew, hd1] using hm1
        · simpa [hT, armedCtx, hnew, hd1] using hm2
      · by_cases hck : (env.getContext (env.shallowCopy v.v_handle)).1 = ctx.dev_type ∧
            (env.getContext (env.shallowCopy v.v_handle)).2 = ctx.dev_id
        · simp only [ctxCheck, if_neg hnew, if_pos hck]
          have hcp : (ctx.dev_type, ctx.dev_id) =
              ((env.getContext (env.shallowCopy v.v_handle)).1,
               (env.getContext (env.shallowCopy v.v_handle)).2) := by
            rw [hck.1, hck.2]
          obtain ⟨c, t1, t2, herr, hm1, hm2, h12⟩ :=
            initLoop_inconsistent env rest (i + 1) (cursorStep i cl).2
              ⟨(env.getContext (env.shallowCopy v.v_handle)).1,
                (env.getContext (env.shallowCopy v.v_handle)).2⟩
              (fun e he => hgood e (List.mem_cons_of_mem _ he)) hsent'
              (by simpa [hT, armedCtx, hnew, hd1, hcp, mem_cons_cons_iff] using hne)
          refine ⟨c, t1, t2, map_eq_error.mpr herr, ?_, ?_, h12⟩
          · simpa [hT, armedCtx, hnew, hd1, hcp, mem_cons_cons_iff] using hm1
          · simpa [hT, armedCtx, hnew, hd1, hcp, mem_cons_cons_iff] using hm2
        · simp only [ctxCheck, if_neg hnew, if_neg hck]
          refine ⟨ctx, (env.getContext (env.shallowCopy v.v_handle)).1,
            (env.getContext (env.shallowCopy v.v_handle)).2, rfl, ?_, ?_, ?_⟩
          · simp [hT, armedCtx, hnew]
          · simp [hT, armedCtx, hnew]
          · intro heq
            apply hck
            have h1 := congrArg Prod.fst heq
            have h2 := congrArg Prod.snd heq
            simp at h1 h2
            exact ⟨h1.symm, h2.symm⟩
    · have hlt : code < kTVMType := by
        rcases hgood (code, v) (by simp) with hh | hh
        · exact absurd hh hcode
        · exact hh
      rw [initLoop_cons_pod env code v rest i cl ctx hcode hlt]
      have hT : tensorCtxs env ((code, v) :: rest) = tensorCtxs env rest := by
        simp [tensorCtxs, hcode]
      obtain ⟨c, t1, t2, herr, hm1, hm2, h12⟩ :=
        initLoop_inconsistent env rest (i + 1) cl ctx
          (fun e he => hgood e (List.mem_cons_of_mem _ he))
          (fun p hp => hsent p (by rw [hT]; exact hp))
          (by rw [hT] at hne; exact hne)
      refine ⟨c, t1, t2, map_eq_error.mpr herr, ?_, ?_, h12⟩
      · rw [hT]; exact hm1
      · rw [hT]; exact hm2

/--
Counterexample to claim C2 as literally stated: the source guards the
device-mismatch comparison with `ctx_.dev_id != -1`, a value sentinel, so
after a first tensor reporting device id `-1` the check at the next
tensor is skipped.  Here the two tensors report the different contexts
`(2, -1)` and `(2, 0)`, yet `Init` succeeds and a `push_sync` is issued.
-/
theorem init_device_mismatch_C2_cex :
    (∃ a ∈ tensorCtxs ⟨id, fun h => (2, (h : Int) - 2), id, id⟩
        ([kTVMNDArrayTypeCode, kTVMNDArrayTypeCode].zip
          [TVMValue.vHandle 1, TVMValue.vHandle 2]),
      ∃ b ∈ tensorCtxs ⟨id, fun h => (2, (h : Int) - 2), id, id⟩
        ([kTVMNDArrayTypeCode, kTVMNDArrayTypeCode].zip
          [TVMValue.vHandle 1, TVMValue.vHandle 2]), a ≠ b) ∧
    wrappedCall ⟨id, fun h => (2, (h : Int) - 2), id, id⟩
        (WrapAsyncCall 0 ([] : List Nat))
        [TVMValue.vHandle 1, TVMValue.vHandle 2]
        [kTVMNDArrayTypeCode, kTVMNDArrayTypeCode] =
      .ok ⟨⟨2, 0⟩, [], [1, 2]⟩ ∧
    pushedCalls (wrappedCall ⟨id, fun h => (2, (h : Int) - 2), id, id⟩
        (WrapAsyncCall 0 ([] : List Nat))
        [TVMValue.vHandle 1, TVMValue.vHandle 2]
        [kTVMNDArrayTypeCode, kTVMNDArrayTypeCode]) = [⟨⟨2, 0⟩, [], [1, 2]⟩] := by
  have hinit : TVMFunctor.Init ⟨id, fun h => (2, (h : Int) - 2), id, id⟩
      [TVMValue.vHandle 1, TVMValue.vHandle 2]
      [kTVMNDArrayTypeCode, kTVMNDArrayTypeCode]
      (WrapAsyncCall 0 ([] : List Nat)).const_loc =
      .ok ⟨[TVMValue.vHandle 1, TVMValue.vHandle 2], [kArrayHandle, kArrayHandle],
        [1, 2], [0, 1], ⟨2, 0⟩, [], [1, 2]⟩ := by rfl
  have hdedup : DeduplicateNDArrayHandle [] [1, 2] = ([], [1, 2]) := by
    have h2 : List.insertionSort (· ≤ ·) [1, 2] = [1, 2] := by decide
    unfold DeduplicateNDArrayHandle
    rw [h2]
    norm_num [dedupAdj, removeWrites]
  have hwc : wrappedCall ⟨id, fun h => (2, (h : Int) - 2), id, id⟩
      (WrapAsyncCall 0 ([] : List Nat))
      [TVMValue.vHandle 1, TVMValue.vHandle 2]
      [kTVMNDArrayTypeCode, kTVMNDArrayTypeCode] = .ok ⟨⟨2, 0⟩, [], [1, 2]⟩ := by
    unfold wrappedCall
    rw [hinit]
    simp [Except.map, hdedup]
  refine ⟨by decide, hwc, by rw [hwc]; rfl⟩

/--
Claim C2 (amended): when two tensor arguments of a wrapped call report
different device contexts, no tensor reports the sentinel device id `-1`
(which the source uses to mark the running context unset, skipping the
mismatch check), and all slots are otherwise admissible, `Init` exits the
process with the inconsistent-context message carrying two distinct
contexts of the call, and no `push_sync` is issued to the engine for that
invocation.
-/
theorem init_device_mismatch_C2 {α : Type} (env : Env) (w : Wrapped α)
    (values : List TVMValue) (tcs : List Int)
    (hpod : ∀ e ∈ tcs.zip values, e.1 = kTVMNDArrayTypeCode ∨ e.1 < kTVMType)
    (hsent : ∀ p ∈ tensorCtxs env (tcs.zip values), p.2 ≠ -1)
    (hne : ∃ a ∈ tensorCtxs env (tcs.zip values),
      ∃ b ∈ tensorCtxs env (tcs.zip values), a ≠ b) :
    ∃ c t1 t2, wrappedCall env w values tcs = .error (.inconsistent c t1 t2) ∧
      (c.dev_type, c.dev_id) ∈ tensorCtxs env (tcs.zip values) ∧
      (t1, t2) ∈ tensorCtxs env (tcs.zip values) ∧
      (c.dev_type, c.dev_id) ≠ (t1, t2) ∧
      pushedCalls (wrappedCall env w values tcs) = [] := by
  obtain ⟨c, t1, t2, herr, hm1, hm2, h12⟩ :=
    initLoop_inconsistent env (tcs.zip values) 0 w.const_loc ⟨0, -1⟩ hpod hsent
      (by simpa [armedCtx] using hne)
  have hwc : wrappedCall env w values tcs = .error (.inconsistent c t1 t2) := by
    unfold wrappedCall TVMFunctor.Init
    rw [map_eq_error, map_eq_error]
    exact herr
  refine ⟨c, t1, t2, hwc, ?_, ?_, h12, by rw [hwc]; rfl⟩
  · simpa [armedCtx] using hm1
  · simpa [armedCtx] using hm2

/-- Closed instantiation of `init_device_mismatch_C2`: two tensors whose
contexts are `(GPU, 0)` and `(GPU, 1)` abort the call with both contexts
in the message, and the engine receives no push. -/
theorem init_device_mismatch_C2_witness :
    ∃ c t1 t2,
      wrappedCall ⟨id, fun h => (2, (h : Int) - 1), id, id⟩
          (WrapAsyncCall 0 ([] : List Nat))
          [TVMValue.vHandle 1, TVMValue.vHandle 2]
          [kTVMNDArrayTypeCode, kTVMNDArrayTypeCode] =
        .error (.inconsistent c t1 t2) ∧
      (c.dev_type, c.dev_id) ∈ tensorCtxs ⟨id, fun h => (2, (h : Int) - 1), id, id⟩
        ([kTVMNDArrayTypeCode, kTVMNDArrayTypeCode].zip
          [TVMValue.vHandle 1, TVMValue.vHandle 2]) ∧
      (t1, t2) ∈ tensorCtxs ⟨id, fun h => (2, (h : Int) - 1), id, id⟩
        ([kTVMNDArrayTypeCode, kTVMNDArrayTypeCode].zip
          [TVMValue.vHandle 1, TVMValue.vHandle 2]) ∧
      (c.dev_type, c.dev_id) ≠ (t1, t2) ∧
      pushedCalls (wrappedCall ⟨id, fun h => (2, (h : Int) - 1), id, id⟩
        (WrapAsyncCall 0 ([] : List Nat))
        [TVMValue.vHandle 1, TVMValue.vHandle 2]
        [kTVMNDArrayTypeCode, kTVMNDArrayTypeCode]) = [] :=
  init_device_mismatch_C2 ⟨id, fun h => (2, (h : Int) - 1), id, id⟩
    (WrapAsyncCall 0 ([] : List Nat))
    [TVMValue.vHandle 1, TVMValue.vHandle 2]
    [kTVMNDArrayTypeCode, kTVMNDArrayTypeCode]
    (by decide) (by decide) (by decide)

/- ### Claim C5 -/

theorem constCopies_drop_head (env : Env) (c0 : Nat) (cl : List Nat) :
    ∀ (l : List (Int × TVMValue)) (i : Nat), c0 < i →
      constCopies env i (c0 :: cl) l = constCopies env i cl l
  | [], i => by intro _; rfl
  | (code, v) :: rest, i => by
    intro h
    have hiff : (i ∈ c0 :: cl) ↔ (i ∈ cl) := by
      constructor
      · intro hm
        rcases List.mem_cons.mp hm with heq | hm'
        · omega
        · exact hm'
      · exact fun hm => List.mem_cons_of_mem _ hm
    simp only [constCopies]
    by_cases hc : code = kTVMNDArrayTypeCode ∧ i ∈ cl
    · rw [if_pos ⟨hc.1, hiff.mpr hc.2⟩, if_pos hc,
        constCopies_drop_head env c0 cl rest (i + 1) (by omega)]
    · rw [if_neg (fun hh => hc ⟨hh.1, hiff.mp hh.2⟩), if_neg hc]
      exact constCopies_drop_head env c0 cl rest (i + 1) (by omega)

theorem mutateCopies_drop_head (env : Env) (c0 : Nat) (cl : List Nat) :
    ∀ (l : List (Int × TVMValue)) (i : Nat), c0 < i →
      mutateCopies env i (c0 :: cl) l = mutateCopies env i cl l
  | [], i => by intro _; rfl
  | (code, v) :: rest, i => by
    intro h
    have hiff : (i ∉ c0 :: cl) ↔ (i ∉ cl) := by
      constructor
      · intro hm hmem
        exact hm (List.mem_cons_of_mem _ hmem)
      · intro hm hmem
        rcases List.mem_cons.mp hmem with heq | hm'
        · omega
        · exact hm hm'
    simp only [mutateCopies]
    by_cases hc : code = kTVMNDArrayTypeCode ∧ i ∉ cl
    · rw [if_pos ⟨hc.1, hiff.mpr hc.2⟩, if_pos hc,
        mutateCopies_drop_head env c0 cl rest (i + 1) (by omega)]
    · rw [if_neg (fun hh => hc ⟨hh.1, hiff.mp hh.2⟩), if_neg hc]
      exact mutateCopies_drop_head env c0 cl rest (i + 1) (by omega)

theorem initLoop_ok_attribution (env : Env) :
    ∀ (l : List (Int × TVMValue)) (i : Nat) (cl : List Nat) (ctx : Context)
      (o : LoopOut),
      cl.Sorted (· < ·) →
      (∀ c ∈ cl, i ≤ c ∧ c - i < l.length ∧
        (l.map Prod.fst).getD (c - i) 0 = kTVMNDArrayTypeCode) →
      initLoop env l i cl ctx = .ok o →
      o.const_nds = constCopies env i cl l ∧ o.mutate_nds = mutateCopies env i cl l
  | [], i, cl, ctx, o => by
    intro _ _ h
    simp only [initLoop, Except.ok.injEq] at h
    rw [← h]
    exact ⟨rfl, rfl⟩
  | (code, v) :: rest, i, cl, ctx, o => by
    intro hs hin h
    by_cases hcode : code = kTVMNDArrayTypeCode
    · rw [initLoop_cons_tensor env code v rest i cl ctx hcode] at h
      rcases hc : ctxCheck ctx (env.getContext (env.shallowCopy v.v_handle)) with e | u
      · rw [hc] at h
        exact absurd h (by simp)
      · rw [hc] at h
        rcases cl with _ | ⟨c0, cl'⟩
        · simp only [cursorStep] at h
          obtain ⟨o', ho', hco⟩ := map_eq_ok h
          obtain ⟨ih1, ih2⟩ := initLoop_ok_attribution env rest (i + 1) [] _ o'
            (by simp) (by simp) ho'
          rw [← hco]
          constructor
          · rw [show (consTensor (env.shallowCopy v.v_handle) i false o').const_nds =
              o'.const_nds from rfl]
            have hnotc : ¬(code = kTVMNDArrayTypeCode ∧ i ∈ ([] : List Nat)) :=
              fun hh => absurd hh.2 (List.not_mem_nil i)
            simp only [constCopies, if_neg hnotc]
            exact ih1
          · rw [show (consTensor (env.shallowCopy v.v_handle) i false o').mutate_nds =
              env.shallowCopy v.v_handle :: o'.mutate_nds from rfl]
            have hm : code = kTVMNDArrayTypeCode ∧ i ∉ ([] : List Nat) :=
              ⟨hcode, List.not_mem_nil i⟩
            simp only [mutateCopies, if_pos hm]
            rw [ih2]
        · by_cases hic : i = c0
          · simp only [cursorStep, if_pos hic] at h
            obtain ⟨o', ho', hco⟩ := map_eq_ok h
            have hs' : cl'.Sorted (· < ·) := (List.sorted_cons.mp hs).2
            have hhead : ∀ c ∈ cl', c0 < c := (List.sorted_cons.mp hs).1
            have hin' : ∀ c ∈ cl', i + 1 ≤ c ∧ c - (i + 1) < rest.length ∧
                (rest.map Prod.fst).getD (c - (i + 1)) 0 = kTVMNDArrayTypeCode := by
              intro c hcmem
              obtain ⟨h1, h2, h3⟩ := hin c (List.mem_cons_of_mem _ hcmem)
              have hgt : c0 < c := hhead c hcmem
              refine ⟨by omega, ?_, ?_⟩
              · simp only [List.length_cons] at h2
                omega
              · have hsub : c - i = (c - (i + 1)) + 1 := by omega
                rw [hsub] at h3
                simpa using h3
            obtain ⟨ih1, ih2⟩ :=
              initLoop_ok_attribution env rest (i + 1) cl' _ o' hs' hin' ho'
            rw [← hco]
            have hmem : i ∈ c0 :: cl' := by
              rw [hic]
              exact List.mem_cons_self c0 cl'
            constructor
            · rw [show (consTensor (env.shallowCopy v.v_handle) i true o').const_nds =
                env.shallowCopy v.v_handle :: o'.const_nds from rfl]
              simp only [constCopies, if_pos (And.intro hcode hmem)]
              rw [constCopies_drop_head env c0 cl' rest (i + 1) (by omega), ih1]
            · rw [show (consTensor (env.shallowCopy v.v_handle) i true o').mutate_nds =
                o'.mutate_nds from rfl]
              have hnotm : ¬(code = kTVMNDArrayTypeCode ∧ i ∉ c0 :: cl') :=
                fun hh => hh.2 hmem
              simp only [mutateCopies, if_neg hnotm]
              rw [mutateCopies_drop_head env c0 cl' rest (i + 1) (by omega), ih2]
          · simp only [cursorStep, if_neg hic] at h
            obtain ⟨o', ho', hco⟩ := map_eq_ok h
            have hile : i ≤ c0 := (hin c0 (List.mem_cons_self c0 cl')).1
            have hnotmem : i ∉ c0 :: cl' := by
              intro hm
              rcases List.mem_cons.mp hm with heq | hm'
              · omega
              · have := (List.sorted_cons.mp hs).1 i hm'
                omega
            have hin' : ∀ c ∈ c0 :: cl', i + 1 ≤ c ∧ c - (i + 1) < rest.length ∧
                (rest.map Prod.fst).getD (c - (i + 1)) 0 = kTVMNDArrayTypeCode := by
              intro c hcmem
              obtain ⟨h1, h2, h3⟩ := hin c hcmem
              have hgt : i < c := by
                rcases List.mem_cons.mp hcmem with heq | hm'
                · omega
                · have := (List.sorted_cons.mp hs).1 c hm'
                  omega
              refine ⟨by omega, ?_, ?_⟩
              · simp only [List.length_cons] at h2
                omega
              · have hsub : c - i = (c - (i + 1)) + 1 := by omega
                rw [hsub] at h3
                simpa using h3
            obtain ⟨ih1, ih2⟩ :=
              initLoop_ok_attribution env rest (i + 1) (c0 :: cl') _ o' hs hin' ho'
            rw [← hco]
            constructor
            · rw [show (consTensor (env.shallowCopy v.v_handle) i false o').const_nds =
                o'.const_nds from rfl]
              have hnotc : ¬(code = kTVMNDArrayTypeCode ∧ i ∈ c0 :: cl') :=
                fun hh => hnotmem hh.2
              simp only [constCopies, if_neg hnotc]
              exact ih1
            · rw [show (consTensor (env.shallowCopy v.v_handle) i false o').mutate_nds =
                env.shallowCopy v.v_handle :: o'.mutate_nds from rfl]
              simp only [mutateCopies, if_pos (And.intro hcode hnotmem)]
              rw [ih2]
    · by_cases hlt : code < kTVMType
      · rw [initLoop_cons_pod env code v rest i cl ctx hcode hlt] at h
        obtain ⟨o', ho', hco⟩ := map_eq_ok h
        have hnoti : i ∉ cl := by
          intro hm
          obtain ⟨h1, h2, h3⟩ := hin i hm
          have hz : i - i = 0 := by omega
          rw [hz] at h3
          simp only [List.map_cons, List.getD_cons_zero] at h3
          exact hcode h3
        have hin' : ∀ c ∈ cl, i + 1 ≤ c ∧ c - (i + 1) < rest.length ∧
            (rest.map Prod.fst).getD (c - (i + 1)) 0 = kTVMNDArrayTypeCode := by
          intro c hcmem
          obtain ⟨h1, h2, h3⟩ := hin c hcmem
          have hci : i < c := by
            rcases Nat.lt_or_ge i c with hh | hh
            · exact hh
            · have hceq : c = i := by omega
              rw [hceq] at hcmem
              exact absurd hcmem hnoti
          refine ⟨by omega, ?_, ?_⟩
          · simp only [List.length_cons] at h2
            omega
          · have hsub : c - i = (c - (i + 1)) + 1 := by omega
            rw [hsub] at h3
            simpa using h3
        obtain ⟨ih1, ih2⟩ := initLoop_ok_attribution env rest (i + 1) cl ctx o' hs hin' ho'
        rw [← hco]
        constructor
        · have hnotc : ¬(code = kTVMNDArrayTypeCode ∧ i ∈ cl) := fun hh => hcode hh.1
          simp only [constCopies, if_neg hnotc]
          exact ih1
        · have hnotm : ¬(code = kTVMNDArrayTypeCode ∧ i ∉ cl) := fun hh => hcode hh.1
          simp only [mutateCopies, if_neg hnotm]
          exact ih2
      · rw [initLoop_cons_bad env code v rest i cl ctx hcode hlt] at h
        exact absurd h (by simp)

/--
Claim C5: for an `Init` call whose const positions are sorted, distinct,
in range and all referring to framework-tensor slots, the shallow copy of
the tensor at slot `i` is attributed to the provisional read-set exactly
when `i` is a const position (the single cursor then matching it), and to
the provisional write-set otherwise: the read-set is the shallow copies
at const tensor slots in order and the write-set the shallow copies at
the remaining tensor slots.
-/
theorem init_attribution_C5 (env : Env) (values : List TVMValue) (tcs : List Int)
    (cl : List Nat) (res : InitResult)
    (hsorted : cl.Sorted (· < ·))
    (hin : ∀ c ∈ cl, c < tcs.length ∧ tcs.getD c 0 = kTVMNDArrayTypeCode)
    (hlen : values.length = tcs.length)
    (hok : TVMFunctor.Init env values tcs cl = .ok res) :
    res.const_nds = constCopies env 0 cl (tcs.zip values) ∧
    res.mutate_nds = mutateCopies env 0 cl (tcs.zip values) := by
  unfold TVMFunctor.Init at hok
  obtain ⟨o, ho, hres⟩ := map_eq_ok hok
  have hfst : (tcs.zip values).map Prod.fst = tcs :=
    List.map_fst_zip tcs values (le_of_eq hlen.symm)
  have hzlen : (tcs.zip values).length = tcs.length := by
    rw [List.length_zip, hlen, Nat.min_self]
  have hin' : ∀ c ∈ cl, 0 ≤ c ∧ c - 0 < (tcs.zip values).length ∧
      ((tcs.zip values).map Prod.fst).getD (c - 0) 0 = kTVMNDArrayTypeCode := by
    intro c hc
    obtain ⟨h1, h2⟩ := hin c hc
    refine ⟨Nat.zero_le c, ?_, ?_⟩
    · rw [hzlen]
      simpa using h1
    · rw [hfst]
      simpa using h2
  obtain ⟨h1, h2⟩ := initLoop_ok_attribution env (tcs.zip values) 0 cl ⟨0, -1⟩ o hsorted hin' ho
  constructor
  · rw [← hres]
    exact h1
  · rw [← hres]
    exact h2

/-- Closed instantiation of `init_attribution_C5`: const positions `[0,1]`
over tensors `H0 H1 H2` (handles 5, 6, 7) give provisional reads
`[H0, H1]` and writes `[H2]`. -/
theorem init_attribution_C5_witness :
    ∃ res, TVMFunctor.Init ⟨id, fun _ => (1, 0), id, id⟩
        [TVMValue.vHandle 5, TVMValue.vHandle 6, TVMValue.vHandle 7]
        [kTVMNDArrayTypeCode, kTVMNDArrayTypeCode, kTVMNDArrayTypeCode] [0, 1] =
        .ok res ∧
      res.const_nds = [5, 6] ∧ res.mutate_nds = [7] := by
  have hok : TVMFunctor.Init ⟨id, fun _ => (1, 0), id, id⟩
      [TVMValue.vHandle 5, TVMValue.vHandle 6, TVMValue.vHandle 7]
      [kTVMNDArrayTypeCode, kTVMNDArrayTypeCode, kTVMNDArrayTypeCode] [0, 1] =
      .ok ⟨[TVMValue.vHandle 5, TVMValue.vHandle 6, TVMValue.vHandle 7],
        [kArrayHandle, kArrayHandle, kArrayHandle], [5, 6, 7], [0, 1, 2],
        ⟨1, 0⟩, [5, 6], [7]⟩ := by rfl
  have h := init_attribution_C5 ⟨id, fun _ => (1, 0), id, id⟩
    [TVMValue.vHandle 5, TVMValue.vHandle 6, TVMValue.vHandle 7]
    [kTVMNDArrayTypeCode, kTVMNDArrayTypeCode, kTVMNDArrayTypeCode] [0, 1] _
    (by decide) (by decide) (by decide) hok
  refine ⟨_, hok, ?_, ?_⟩
  · rw [h.1]
    rfl
  · rw [h.2]
    rfl

end MxnetGlue
